import Mathlib

/-!
Shallow embedding of the cTrader Open API async client runtime
(`ctrader_open_api_async/tcp_protocol.py`, `ctrader_open_api_async/client.py`,
`ctrader_async_connector.py`) together with proofs about the properties the
specification states for it.

Conventions used throughout:
* wall-clock instants and durations are rationals (seconds);
* serialized byte strings are `List ℕ` (one `ℕ` per byte);
* Python dictionaries are association lists with unique keys, with
  insertion-order-preserving update semantics (`dictInsert`, `dictPop`);
* Python truthiness (`x or y`, `if s:`) is modelled explicitly where the
  source relies on it.
-/

namespace Ctrader

/-! ### Send scheduler (`AsyncTcpProtocol._message_sender`)

The sender task loops: sleep `1 / messages_per_second` seconds, then pop and
write `min (queue length) messages_per_second` messages from the queue.  We
model the schedule for an initial burst of `N` queued messages in tick units:
tick `k` (0-based) happens `(k+1) / mps` seconds after the burst, and one
second spans `mps` consecutive ticks. -/

/-- Number of messages remaining in the queue after `k` full sender ticks,
starting from a burst of `N` messages: each tick drains `min mps remaining`
messages, i.e. `mps` of them while any remain (ℕ subtraction clamps at 0). -/
def remainingAfter (mps N k : ℕ) : ℕ := N - mps * k

/-- Number of messages the sender task writes at 0-based tick `k`, for an
initial burst of `N` queued messages: `messages_to_send =
min(len(self._send_queue), self.messages_per_second)` with the queue holding
`remainingAfter mps N k` messages. -/
def senderWrites (mps N k : ℕ) : ℕ := min mps (remainingAfter mps N k)

/-- Direct transcription of the drain loop: simulate `fuel` sender ticks on a
queue of `r` messages, returning the batch size written at each tick. -/
def drainBatches (mps : ℕ) : ℕ → ℕ → List ℕ
  | 0, _ => []
  | fuel + 1, r => min mps r :: drainBatches mps fuel (r - min mps r)

/-- Total number of writes the sender performs during the 1-second sliding
window that contains exactly the `mps` ticks `a, a+1, ..., a + mps - 1`
(one second = `mps` ticks of length `1 / mps` seconds each). -/
def windowWrites (mps N a : ℕ) : ℕ :=
  ((List.range mps).map fun i => senderWrites mps N (a + i)).sum

/-- One drain step commutes with the closed form: after draining one batch
from `N`, the writes at tick `k` are the writes at tick `k+1` of the original
burst. -/
lemma senderWrites_drain (mps N k : ℕ) :
    senderWrites mps (N - min mps N) k = senderWrites mps N (k + 1) := by
  unfold senderWrites remainingAfter
  rcases le_total mps N with h | h
  · rw [min_eq_left h]
    congr 1
    rw [Nat.mul_succ]
    omega
  · rw [min_eq_right h]
    have h1 : N - N - mps * k = 0 := by omega
    have h2 : N - mps * (k + 1) = 0 := by
      have : mps ≤ mps * (k + 1) := Nat.le_mul_of_pos_right mps (Nat.succ_pos k)
      omega
    rw [h1, h2]

/-- The loop transcription agrees with the closed form `senderWrites`:
simulating `fuel` ticks of the drain loop yields exactly the batches
`senderWrites mps N 0, …, senderWrites mps N (fuel - 1)`. -/
lemma drainBatches_eq_senderWrites (mps : ℕ) :
    ∀ fuel N, drainBatches mps fuel N = (List.range fuel).map (senderWrites mps N) := by
  intro fuel
  induction fuel with
  | zero => intro N; simp [drainBatches]
  | succ f ih =>
      intro N
      rw [drainBatches, ih (N - min mps N), List.range_succ_eq_map]
      simp only [List.map_cons, List.map_map]
      have h0 : senderWrites mps N 0 = min mps N := by
        simp [senderWrites, remainingAfter]
      rw [h0]
      congr 1
      apply List.map_congr_left
      intro k _
      simp only [Function.comp_apply]
      exact senderWrites_drain mps N k

/-! ### Protocol state and envelopes (`AsyncTcpProtocol`) -/

/-- Decoded outer envelope (`ProtoMessage`): `payloadType`, payload bytes and
the optional correlation id (`clientMsgId` is a protobuf string field that
defaults to the empty string when unset). -/
structure Env where
  payloadType : ℕ
  payload : List ℕ
  clientMsgId : String
  deriving DecidableEq, Repr

/-- A payload type tag of `ProtoHeartbeatEvent` (`HEARTBEAT_EVENT = 51` in
`OpenApiCommonMessages`). -/
def heartbeatPayloadType : ℕ := 51

/-- Serialized bytes of the heartbeat envelope the client writes
(`ProtoHeartbeatEvent()` wrapped and serialized); kept abstract as a fixed
byte string. -/
def heartbeatBytes : List ℕ := [8, 51]

/-- The `MAX_LENGTH` constant of `AsyncTcpProtocol`: inbound frames declaring
a larger length abort the receive loop. -/
def maxLength : ℕ := 15000000

/-- Mutable protocol state: the connected flag, the outbound queue (each entry
carries the value its `is_canceled` predicate returns at dequeue time, plus
the serialized bytes), the timestamp of the last write, and the transcript of
byte strings written to the transport, in order. -/
structure ProtoState where
  isConnected : Bool
  sendQueue : List (Bool × List ℕ)
  lastSendTime : Option ℚ
  written : List (List ℕ)
  deriving DecidableEq, Repr

/-- The instant send path (`send(..., instant=True)`): `_send_data` writes the
frame immediately and `_last_send_time` is set to `datetime.now()`.  The
outbound queue is not consulted. -/
def sendInstant (p : ProtoState) (now : ℚ) (data : List ℕ) : ProtoState :=
  { p with written := p.written ++ [data], lastSendTime := some now }

/-- The queued send path (`send(..., instant=False)`): append the entry to the
outbound queue; nothing is written yet. -/
def sendQueued (p : ProtoState) (cancelled : Bool) (data : List ℕ) : ProtoState :=
  { p with sendQueue := p.sendQueue ++ [(cancelled, data)] }

/-- One iteration of the `_message_sender` loop body, entered right after the
`1 / messages_per_second` sleep: if the queue is empty, emit a heartbeat when
there has been no write yet or more than 20 seconds passed since the last
write; otherwise pop `min (queue length) mps` entries, write the
non-cancelled ones, and stamp `_last_send_time`. -/
def senderTick (p : ProtoState) (now : ℚ) (mps : ℕ) : ProtoState :=
  if p.sendQueue = [] then
    match p.lastSendTime with
    | none => sendInstant p now heartbeatBytes
    | some t => if now - t > 20 then sendInstant p now heartbeatBytes else p
  else
    let n := min mps p.sendQueue.length
    { p with
      sendQueue := p.sendQueue.drop n
      written := p.written ++ ((p.sendQueue.take n).filter (fun e => !e.1)).map (·.2)
      lastSendTime := some now }

/-- Result of `_process_message` on one decoded envelope: either the message
was a heartbeat (answered immediately on the instant path, user callback not
invoked) or it is handed to the registered `on_message_received` callback. -/
def processMessage (p : ProtoState) (now : ℚ) (e : Env) : ProtoState × Bool :=
  if e.payloadType = heartbeatPayloadType then (sendInstant p now heartbeatBytes, false)
  else (p, true)

/-! ### Frame reading (`AsyncTcpProtocol._read_exact`, `_message_receiver`)

The stream reader is modelled by the list of chunks its successive
`reader.read(k)` calls return: a genuine asyncio read returns between 1 and
`k` bytes, and returns the empty byte string exactly at EOF.  `_read_exact`
accumulates chunks until `size` bytes are collected, and returns the empty
byte string as soon as a read returns empty. -/

/-- Transcription of `_read_exact`: starting from accumulated bytes `acc`,
keep reading while fewer than `size` bytes are collected; an empty chunk
(EOF) makes the whole call return the empty byte string.  Returns the result
together with the unconsumed chunk suffix. -/
def readExactGo (size : ℕ) : List (List ℕ) → List ℕ → List ℕ × List (List ℕ)
  | [], acc => if acc.length < size then ([], []) else (acc, [])
  | c :: rest, acc =>
      if acc.length < size then
        if c = [] then ([], rest) else readExactGo size rest (acc ++ c)
      else (acc, c :: rest)

/-- The call `_read_exact(size)` on a live reader delivering `chunks`. -/
def readExact (chunks : List (List ℕ)) (size : ℕ) : List ℕ × List (List ℕ) :=
  readExactGo size chunks []

/-- Well-formedness of a chunk trace for a given request: each chunk returned
by `reader.read(size - len(data))` holds at most the number of bytes asked
for.  This is exactly the asyncio reader contract; EOF chunks are empty. -/
def chunksFit (size : ℕ) : List (List ℕ) → List ℕ → Bool
  | [], _ => true
  | c :: rest, acc =>
      if acc.length < size then
        decide (c.length ≤ size - acc.length) && (c.isEmpty || chunksFit size rest (acc ++ c))
      else true

/-- Big-endian decoding of the 4 length-prefix bytes (`struct.unpack(">I")`). -/
def beU32 (bs : List ℕ) : ℕ := bs.foldl (fun a b => a * 256 + b) 0

/-- Outcome of one iteration of the `_message_receiver` loop. -/
inductive RecvOutcome where
  | closed
  | tooLarge
  | deliver (payload : List ℕ)
  deriving DecidableEq, Repr

/-- One iteration of `_message_receiver`: read the 4-byte length prefix (empty
result means the server closed the connection and the loop breaks), check it
against `MAX_LENGTH`, then read exactly that many payload bytes (again an
empty result breaks the loop); otherwise the payload is handed to
`_process_message`. -/
def receiverStep (chunks : List (List ℕ)) : RecvOutcome :=
  let r4 := readExact chunks 4
  if r4.1 = [] then .closed
  else
    let len := beU32 r4.1
    if maxLength < len then .tooLarge
    else
      let rp := readExact r4.2 len
      if rp.1 = [] then .closed
      else .deliver rp.1

/-! ### Python dictionaries

The correlation map `AsyncClient._response_futures` is a Python `dict`; we
model it as an association list with pairwise-distinct keys.  `dictInsert`
is `d[k] = v` (replace in place if the key exists, else append, preserving
insertion order), `dictPop` is `d.pop(k, None)`, `dictGet` is `d[k]` lookup
and the `k in d` test. -/

/-- Python `d[k] = v`. -/
def dictInsert {α β : Type} [DecidableEq α] : List (α × β) → α → β → List (α × β)
  | [], k, v => [(k, v)]
  | (a, b) :: t, k, v => if a = k then (k, v) :: t else (a, b) :: dictInsert t k v

/-- Python `d.pop(k, None)`, restricted to its effect on the dictionary. -/
def dictPop {α β : Type} [DecidableEq α] : List (α × β) → α → List (α × β)
  | [], _ => []
  | (a, b) :: t, k => if a = k then t else (a, b) :: dictPop t k

/-- Python `d[k]` / `k in d`. -/
def dictGet {α β : Type} [DecidableEq α] : List (α × β) → α → Option β
  | [], _ => none
  | (a, b) :: t, k => if a = k then some b else dictGet t k

/-- The defining dictionary invariant: keys are pairwise distinct. -/
def nodupKeys {α β : Type} (d : List (α × β)) : Prop := (d.map Prod.fst).Nodup

/-! ### Client correlation model (`AsyncClient`)

Futures are identified by tokens (ℕ); the store records the lifecycle state
of every future ever created, and the correlation map `_response_futures`
binds a `clientMsgId` to a future token.  Callers hold their own reference
to the future they await, so a future can outlive its map entry. -/

/-- Lifecycle state of an `asyncio.Future`. -/
inductive FutState where
  | pending
  | resolved (e : Env)
  | failed (reason : String)
  deriving DecidableEq, Repr

/-- Client-side state: connected flag, the future store, the correlation map
`_response_futures`, the transcript of user message-callback invocations, and
the transcript of reasons passed to the user disconnect callback. -/
structure ClientState where
  isConnected : Bool
  store : List (ℕ × FutState)
  respMap : List (String × ℕ)
  callbackCalls : List Env
  disconnectCalls : List String
  deriving DecidableEq, Repr

/-- Complete one future in the store, but only if it is still pending
(`if not future.done()`). -/
def setFut (store : List (ℕ × FutState)) (tok : ℕ) (st : FutState) : List (ℕ × FutState) :=
  store.map fun p => if p.1 = tok then (if p.2 = FutState.pending then (tok, st) else p) else p

/-- The `AsyncClient._on_disconnected(reason)` handler: clear the connected
flag, fail every still-pending future referenced by the correlation map with
a `ConnectionError` carrying the reason, clear the map, and invoke the user
disconnect callback with the reason. -/
def onDisconnected (c : ClientState) (reason : String) : ClientState :=
  { c with
    isConnected := false
    store := (c.respMap.map Prod.snd).foldl
      (fun st tok => setFut st tok (.failed ("Соединение потеряно: " ++ reason))) c.store
    respMap := []
    disconnectCalls := c.disconnectCalls ++ [reason] }

/-- The `AsyncClient._on_message_received(message)` handler, with the user
callback modelled by `handler`: `none` when no callback is registered,
`some b` when one is registered and `b` tells whether it throws on this
message.  The user callback runs first; if it throws, the exception
propagates out of the handler (to be caught by the protocol's `_safe_call`)
before the correlation lines run.  Otherwise, when `clientMsgId` is non-empty
and present in the map, the entry is popped and the pending future is
resolved with the envelope.  The second component records whether the
handler raised. -/
def onMessageReceived (c : ClientState) (handler : Option Bool) (e : Env) :
    ClientState × Bool :=
  let c1 := match handler with
    | none => c
    | some _ => { c with callbackCalls := c.callbackCalls ++ [e] }
  if handler = some true then (c1, true)
  else
    if e.clientMsgId ≠ "" then
      match dictGet c1.respMap e.clientMsgId with
      | some tok =>
          ({ c1 with
             respMap := dictPop c1.respMap e.clientMsgId
             store := setFut c1.store tok (.resolved e) }, false)
      | none => (c1, false)
    else (c1, false)

/-- The protocol delivers every inbound non-heartbeat envelope to the client
through `_safe_call(self.on_message_received, msg)`, which catches any
exception the handler raises, logs it, and returns: the receive loop
continues either way.  `safeCallSurvives` records whether the loop survives
the callback. -/
def safeCallSurvives (raised : Bool) : Bool := raised || !raised

/-- Registration step of `AsyncClient.send`: create a fresh pending future and
bind it in the correlation map (`self._response_futures[client_msg_id] =
response_future`, a plain dict assignment). -/
def sendRegister (c : ClientState) (id : String) (tok : ℕ) : ClientState :=
  { c with
    store := c.store ++ [(tok, .pending)]
    respMap := dictInsert c.respMap id tok }

/-- Outcome of `AsyncClient.send` as seen by its caller. -/
inductive SendOutcome where
  | ok (e : Env)
  | timeoutErr
  deriving DecidableEq, Repr

/-- The `except asyncio.TimeoutError` arm of `AsyncClient.send`: pop this
request's id from the correlation map (`self._response_futures.pop(
client_msg_id, None)`) and re-raise the timeout to the caller.  The store is
untouched. -/
def sendOnTimeout (c : ClientState) (id : String) : ClientState × SendOutcome :=
  ({ c with respMap := dictPop c.respMap id }, .timeoutErr)

/-! ### Disconnect event paths (`_message_receiver`, `disconnect`)

The composite state pairs the protocol's connected flag with the client
state.  Three events can end a session: EOF from the server, a transport
error in the receive loop, and an explicit `disconnect()` call. -/

/-- Composite session state. -/
structure SysState where
  protoConnected : Bool
  client : ClientState
  deriving DecidableEq, Repr

/-- EOF path of `_message_receiver`: `_read_exact` returns empty, the loop
logs and breaks, and the `finally` clause clears `is_connected`.  No callback
is invoked and no future is touched. -/
def receiverOnEof (s : SysState) : SysState :=
  { s with protoConnected := false }

/-- Transport-error path of `_message_receiver`: the exception is logged and
`_handle_error` fires `on_error` — a callback `AsyncClient` never registers —
then the `finally` clause clears `is_connected`.  No future is touched and
the disconnect callback is not invoked. -/
def receiverOnError (s : SysState) : SysState :=
  { s with protoConnected := false }

/-- Explicit `AsyncTcpProtocol.disconnect()`: clear the connected flag, stop
the send task, close the writer, and invoke `on_disconnected("Manual
disconnect")`, which is `AsyncClient._on_disconnected`. -/
def protocolDisconnect (s : SysState) : SysState :=
  { protoConnected := false
    client := onDisconnected s.client "Manual disconnect" }

/-! ### Connector account guards (`CTraderAsyncConnector`)

The connector keeps `current_account_id : Optional[int]`, set by
`set_account` before the server confirms account authorization.  Some
operations raise `ValueError` when no account id is set; the trading
operations pass `self.current_account_id` straight to the client layer
without any check. -/

/-- Errors a connector operation can raise before reaching the client. -/
inductive ConnError where
  | accountNotSet
  | notConnected
  deriving DecidableEq, Repr

/-- Connector state relevant to the guards. -/
structure ConnState where
  currentAccountId : Option ℤ
  clientConnected : Bool
  deriving DecidableEq, Repr

/-- Requests an operation hands to the `AsyncClient` request layer (and hence
to the wire).  `newOrder` and `cancelOrder` carry the raw
`current_account_id` because the connector forwards it unchecked. -/
inductive ApiCall where
  | symbolsList (acct : ℤ) (includeArchived : Bool)
  | assetList (acct : ℤ)
  | traderInfo (acct : ℤ)
  | newOrder (acct : Option ℤ) (symbolId orderType tradeSide volume : ℤ)
  | cancelOrder (acct : Option ℤ) (orderId : ℤ)
  deriving DecidableEq, Repr

/-- The guard `if not self.current_account_id:` is a Python truthiness test
on an `Optional[int]`: it fires both when the id is `None` and when it is the
falsy integer 0. -/
def accountFalsy (x : Option ℤ) : Bool :=
  match x with
  | none => true
  | some a => a = 0

/-- The `CTraderAsyncConnector.get_symbols` operation: raises `ValueError`
when `current_account_id` is falsy (`None` or 0), otherwise sends the
symbols-list request. -/
def getSymbols (s : ConnState) (includeArchived : Bool) : Except ConnError ApiCall :=
  match s.currentAccountId with
  | none => .error .accountNotSet
  | some a => if a = 0 then .error .accountNotSet else .ok (.symbolsList a includeArchived)

/-- The `CTraderAsyncConnector.get_assets` operation: same falsiness guard as
`get_symbols`. -/
def getAssets (s : ConnState) : Except ConnError ApiCall :=
  match s.currentAccountId with
  | none => .error .accountNotSet
  | some a => if a = 0 then .error .accountNotSet else .ok (.assetList a)

/-- The `CTraderAsyncConnector.get_trader_info` operation: the same falsiness
guard on the account id, followed by a client-connection check. -/
def getTraderInfo (s : ConnState) : Except ConnError ApiCall :=
  match s.currentAccountId with
  | none => .error .accountNotSet
  | some a =>
      if a = 0 then .error .accountNotSet
      else if s.clientConnected then .ok (.traderInfo a) else .error .notConnected

/-- The `CTraderAsyncConnector.place_market_order` operation: no guard at all;
`self.current_account_id` is forwarded as-is to
`client.send_new_order_req` (order type `MARKET = 1`). -/
def placeMarketOrder (s : ConnState) (symbolId tradeSide volume : ℤ) :
    Except ConnError ApiCall :=
  .ok (.newOrder s.currentAccountId symbolId 1 tradeSide volume)

/-- The `CTraderAsyncConnector.cancel_order` operation: no guard either. -/
def cancelOrder (s : ConnState) (orderId : ℤ) : Except ConnError ApiCall :=
  .ok (.cancelOrder s.currentAccountId orderId)

/-- The `CTraderAsyncConnector.set_account` operation: stores the id and sends
the account-auth request; it does not wait for (or check) the auth
response before `current_account_id` becomes set. -/
def setAccount (s : ConnState) (accountId : ℤ) : ConnState :=
  { s with currentAccountId := some accountId }

/-! ### Token manager (`load_tokens`, `save_tokens`, `ensure_token_valid`)

`TokenData` is a dataclass whose constructor performs no type checks, so
values that Python's `x or y` turned into `None` are stored as given; the
fields that `load_tokens` fills through `dict.get` are therefore `Option`s.
Timestamps are rationals (epoch seconds). -/

/-- In-memory token (`TokenData` dataclass). -/
structure TokenData where
  access_token : Option String
  refresh_token : Option String
  expires_in : Option ℚ
  issued_at : ℚ
  token_type : String
  deriving DecidableEq, Repr

/-- Contents of the token file, as the set of recognized keys each either
absent or holding a value.  Camel-case keys are the legacy format; snake_case
keys the canonical one. -/
structure TokFile where
  camelAccess : Option String
  camelRefresh : Option String
  camelExpires : Option ℚ
  camelType : Option String
  snakeAccess : Option String
  snakeRefresh : Option String
  snakeExpires : Option ℚ
  snakeType : Option String
  snakeIssued : Option ℚ
  deriving DecidableEq, Repr

/-- Python truthiness of an optional string (`None` and `""` are falsy). -/
def truthyStr (x : Option String) : Bool :=
  match x with
  | none => false
  | some s => s ≠ ""

/-- Python truthiness of an optional number (`None` and `0` are falsy). -/
def truthyNum (x : Option ℚ) : Bool :=
  match x with
  | none => false
  | some q => q ≠ 0

/-- Python `x or y` on optional strings. -/
def pyOrStr (x y : Option String) : Option String := if truthyStr x then x else y

/-- Python `x or y` on optional numbers. -/
def pyOrNum (x y : Option ℚ) : Option ℚ := if truthyNum x then x else y

/-- The file `save_tokens` writes: `json.dump(token_data.__dict__)`, i.e. the
five snake_case dataclass fields and nothing else. -/
def savedFileOf (t : TokenData) : TokFile :=
  { camelAccess := none, camelRefresh := none, camelExpires := none, camelType := none
    snakeAccess := t.access_token, snakeRefresh := t.refresh_token
    snakeExpires := t.expires_in, snakeType := some t.token_type
    snakeIssued := some t.issued_at }

/-- Transcription of `load_tokens` on an existing, well-formed JSON file read
at epoch time `now`.  If the legacy key `accessToken` is present, each field
is normalized with an `or`-fallback to its snake_case twin, `token_type`
defaults to `"Bearer"`, `issued_at` defaults to `now`, and the normalized
token is immediately re-saved (second component).  Otherwise the dataclass is
built directly from the file's keys: `TokenData(**token_dict)` raises
`TypeError` — caught, leaving no token — when a required snake_case key is
missing, when `token_type` is absent it must still be supplied by the file
(it has a dataclass default), and when any unexpected camelCase key is
present. -/
def loadTokens (f : TokFile) (now : ℚ) : Option TokenData × Option TokFile :=
  if f.camelAccess ≠ none then
    let t : TokenData :=
      { access_token := pyOrStr f.camelAccess f.snakeAccess
        refresh_token := pyOrStr f.camelRefresh f.snakeRefresh
        expires_in := pyOrNum f.camelExpires f.snakeExpires
        token_type := f.camelType.getD "Bearer"
        issued_at := f.snakeIssued.getD now }
    (some t, some (savedFileOf t))
  else
    if f.camelRefresh ≠ none ∨ f.camelExpires ≠ none ∨ f.camelType ≠ none then
      (none, none)
    else
      match f.snakeAccess, f.snakeRefresh, f.snakeExpires, f.snakeIssued with
      | some a, some r, some e, some i =>
          (some { access_token := some a, refresh_token := some r, expires_in := some e
                  issued_at := i, token_type := f.snakeType.getD "Bearer" }, none)
      | _, _, _, _ => (none, none)

/-- Fields of a successful token-endpoint response used by `refresh_token`. -/
structure TokenResp where
  access_token : Option String
  refresh_token : Option String
  expires_in : Option ℚ
  token_type : String
  deriving DecidableEq, Repr

/-- The token `CTraderAsyncConnector.refresh_token` stores: the response
fields with `issued_at` stamped to the current time. -/
def mkRefreshed (resp : TokenResp) (now : ℚ) : TokenData :=
  { access_token := resp.access_token, refresh_token := resp.refresh_token
    expires_in := resp.expires_in, issued_at := now, token_type := resp.token_type }

/-- Transcription of `CTraderAsyncConnector.ensure_token_valid` for a present
token: `expires_at = fromtimestamp(expires_in + issued_at)`; refresh exactly
when `now ≥ expires_at − 5 minutes`, replacing the stored token by the
refreshed one; otherwise leave the stored token untouched.  Returns `none`
when `expires_in` is not a number (Python would raise in the arithmetic);
the boolean reports whether a refresh was performed. -/
def ensureTokenValid (t : TokenData) (now : ℚ) (resp : TokenResp) :
    Option (TokenData × Bool) :=
  match t.expires_in with
  | none => none
  | some e =>
      if now ≥ (e + t.issued_at) - 5 * 60 then some (mkRefreshed resp now, true)
      else some (t, false)

/-! ### Supporting lemmas about the dictionary model -/

section DictLemmas

variable {α β : Type} [DecidableEq α]

lemma dictGet_dictPop_ne (m : List (α × β)) (k id : α) (h : k ≠ id) :
    dictGet (dictPop m id) k = dictGet m k := by
  induction m with
  | nil => rfl
  | cons p t ih =>
      obtain ⟨a, b⟩ := p
      by_cases ha : a = id
      · subst ha
        simp [dictPop, dictGet, Ne.symm h]
      · simp only [dictPop, if_neg ha]
        by_cases hk : a = k
        · simp [dictGet, hk]
        · simp [dictGet, hk, ih]

lemma dictGet_eq_none_of_not_mem (m : List (α × β)) (k : α)
    (h : k ∉ m.map Prod.fst) : dictGet m k = none := by
  induction m with
  | nil => rfl
  | cons p t ih =>
      simp only [List.map_cons, List.mem_cons] at h
      push_neg at h
      simp [dictGet, Ne.symm h.1, ih h.2]

lemma dictGet_dictPop_self (m : List (α × β)) (id : α) (h : nodupKeys m) :
    dictGet (dictPop m id) id = none := by
  induction m with
  | nil => rfl
  | cons p t ih =>
      obtain ⟨a, b⟩ := p
      simp only [nodupKeys, List.map_cons, List.nodup_cons] at h
      by_cases ha : a = id
      · subst ha
        simp only [dictPop, if_pos rfl]
        exact dictGet_eq_none_of_not_mem t a h.1
      · simp [dictPop, ha, dictGet, ih h.2]

lemma mem_keys_dictInsert (m : List (α × β)) (k : α) (v : β) (x : α)
    (h : x ∈ (dictInsert m k v).map Prod.fst) : x = k ∨ x ∈ m.map Prod.fst := by
  induction m with
  | nil => simpa [dictInsert] using h
  | cons p t ih =>
      obtain ⟨a, b⟩ := p
      by_cases ha : a = k
      · subst ha
        simpa [dictInsert] using h
      · simp only [dictInsert, if_neg ha, List.map_cons, List.mem_cons] at h
        rcases h with h | h
        · subst h; simp
        · rcases ih h with h | h
          · exact Or.inl h
          · exact Or.inr (by simp [h])

lemma nodupKeys_dictInsert (m : List (α × β)) (k : α) (v : β) (h : nodupKeys m) :
    nodupKeys (dictInsert m k v) := by
  induction m with
  | nil => simp [dictInsert, nodupKeys]
  | cons p t ih =>
      obtain ⟨a, b⟩ := p
      simp only [nodupKeys, List.map_cons, List.nodup_cons] at h
      by_cases ha : a = k
      · subst ha
        simpa [dictInsert, nodupKeys] using h
      · simp only [dictInsert, if_neg ha, nodupKeys, List.map_cons, List.nodup_cons]
        refine ⟨fun hmem => ?_, ih h.2⟩
        rcases mem_keys_dictInsert t k v a hmem with h1 | h1
        · exact ha h1
        · exact h.1 h1

lemma keys_dictPop_sublist (m : List (α × β)) (k : α) :
    List.Sublist ((dictPop m k).map Prod.fst) (m.map Prod.fst) := by
  induction m with
  | nil => simp [dictPop]
  | cons p t ih =>
      obtain ⟨a, b⟩ := p
      by_cases ha : a = k
      · simp only [dictPop, if_pos ha, List.map_cons]
        exact (List.sublist_cons_self a (t.map Prod.fst))
      · simp only [dictPop, if_neg ha, List.map_cons]
        exact List.Sublist.cons₂ a ih

lemma nodupKeys_dictPop (m : List (α × β)) (k : α) (h : nodupKeys m) :
    nodupKeys (dictPop m k) :=
  List.Nodup.sublist (keys_dictPop_sublist m k) h

lemma dictGet_dictInsert_self (m : List (α × β)) (k : α) (v : β) :
    dictGet (dictInsert m k v) k = some v := by
  induction m with
  | nil => simp [dictInsert, dictGet]
  | cons p t ih =>
      obtain ⟨a, b⟩ := p
      by_cases ha : a = k
      · simp [dictInsert, ha, dictGet]
      · simp [dictInsert, ha, dictGet, ih]

lemma mem_dictInsert (m : List (α × β)) (k : α) (v : β) (p : α × β)
    (hnd : nodupKeys m) (h : p ∈ dictInsert m k v) : p = (k, v) ∨ (p ∈ m ∧ p.1 ≠ k) := by
  induction m with
  | nil => simpa [dictInsert] using h
  | cons q t ih =>
      obtain ⟨a, b⟩ := q
      simp only [nodupKeys, List.map_cons, List.nodup_cons] at hnd
      by_cases ha : a = k
      · simp only [dictInsert] at h
        rw [if_pos ha] at h
        simp only [List.mem_cons] at h
        rcases h with h | h
        · exact Or.inl h
        · refine Or.inr ⟨List.mem_cons_of_mem _ h, fun hk => ?_⟩
          have hm := List.mem_map_of_mem Prod.fst h
          rw [hk, ← ha] at hm
          exact hnd.1 hm
      · simp only [dictInsert] at h
        rw [if_neg ha] at h
        simp only [List.mem_cons] at h
        rcases h with h | h
        · subst h; exact Or.inr ⟨List.mem_cons_self _ _, ha⟩
        · rcases ih hnd.2 h with h1 | h1
          · exact Or.inl h1
          · exact Or.inr ⟨List.mem_cons_of_mem _ h1.1, h1.2⟩

lemma dictGet_mem (m : List (α × β)) (k : α) (v : β) (h : dictGet m k = some v) :
    (k, v) ∈ m := by
  induction m with
  | nil => simp [dictGet] at h
  | cons p t ih =>
      obtain ⟨a, b⟩ := p
      by_cases ha : a = k
      · simp only [dictGet] at h
        rw [if_pos ha] at h
        injection h with hb
        rw [← ha, ← hb]
        exact List.mem_cons_self _ _
      · simp only [dictGet] at h
        rw [if_neg ha] at h
        exact List.mem_cons_of_mem _ (ih h)

end DictLemmas

/-! ### Supporting lemmas about future completion -/

lemma setFut_get_ne (st : List (ℕ × FutState)) (t tok : ℕ) (w : FutState)
    (h : tok ≠ t) : dictGet (setFut st t w) tok = dictGet st tok := by
  induction st with
  | nil => rfl
  | cons p rest ih =>
      obtain ⟨a, b⟩ := p
      have htn : ¬ t = tok := fun he => h he.symm
      simp only [setFut, List.map_cons]
      by_cases ha : a = t
      · rw [if_pos ha]
        have han : ¬ a = tok := by rw [ha]; exact htn
        by_cases hb : b = FutState.pending
        · rw [if_pos hb]
          simp only [dictGet, if_neg htn, if_neg han]
          simpa [setFut] using ih
        · rw [if_neg hb]
          simp only [dictGet, if_neg han]
          simpa [setFut] using ih
      · rw [if_neg ha]
        by_cases hk : a = tok
        · simp only [dictGet, if_pos hk]
        · simp only [dictGet, if_neg hk]
          simpa [setFut] using ih

lemma setFut_get_pending (st : List (ℕ × FutState)) (t : ℕ) (w : FutState)
    (h : dictGet st t = some .pending) : dictGet (setFut st t w) t = some w := by
  induction st with
  | nil => simp [dictGet] at h
  | cons p rest ih =>
      obtain ⟨a, b⟩ := p
      simp only [setFut, List.map_cons]
      by_cases hk : a = t
      · simp only [dictGet] at h
        rw [if_pos hk] at h
        injection h with hb
        rw [if_pos hk, if_pos hb]
        simp [dictGet]
      · simp only [dictGet] at h
        rw [if_neg hk] at h
        rw [if_neg hk]
        simp only [dictGet, if_neg hk]
        simpa [setFut] using ih h

lemma setFut_get_stable (st : List (ℕ × FutState)) (t : ℕ) (w v : FutState)
    (h : dictGet st t = some v) (hv : v ≠ .pending) :
    dictGet (setFut st t w) t = some v := by
  induction st with
  | nil => simp [dictGet] at h
  | cons p rest ih =>
      obtain ⟨a, b⟩ := p
      simp only [setFut, List.map_cons]
      by_cases hk : a = t
      · simp only [dictGet] at h
        rw [if_pos hk] at h
        injection h with hb
        have hbp : ¬ b = FutState.pending := by rw [hb]; exact hv
        rw [if_pos hk, if_neg hbp]
        simp only [dictGet, if_pos hk, hb]
      · simp only [dictGet] at h
        rw [if_neg hk] at h
        rw [if_neg hk]
        simp only [dictGet, if_neg hk]
        simpa [setFut] using ih h

lemma foldl_fail_preserved (toks : List ℕ) (st : List (ℕ × FutState)) (tok : ℕ) (r : String)
    (h : dictGet st tok = some (.failed r)) :
    dictGet (toks.foldl (fun s t => setFut s t (.failed r)) st) tok = some (.failed r) := by
  induction toks generalizing st with
  | nil => simpa using h
  | cons t0 rest ih =>
      simp only [List.foldl_cons]
      apply ih
      by_cases ht : tok = t0
      · subst ht
        exact setFut_get_stable st tok (.failed r) (.failed r) h (by simp)
      · rw [setFut_get_ne st t0 tok (.failed r) ht]
        exact h

lemma foldl_fail_sets (toks : List ℕ) (st : List (ℕ × FutState)) (tok : ℕ) (r : String)
    (hmem : tok ∈ toks) (h : dictGet st tok = some .pending) :
    dictGet (toks.foldl (fun s t => setFut s t (.failed r)) st) tok = some (.failed r) := by
  induction toks generalizing st with
  | nil => simp at hmem
  | cons t0 rest ih =>
      simp only [List.foldl_cons]
      by_cases ht : tok = t0
      · subst ht
        apply foldl_fail_preserved
        exact setFut_get_pending st tok (.failed r) h
      · rcases List.mem_cons.mp hmem with hm | hm
        · exact absurd hm ht
        · refine ih (setFut st t0 (.failed r)) hm ?_
          rw [setFut_get_ne st t0 tok (.failed r) ht]
          exact h

/-! ### Supporting lemma about `_read_exact` -/

lemma readExactGo_spec (size : ℕ) :
    ∀ (chunks : List (List ℕ)) (acc : List ℕ), acc.length ≤ size →
      chunksFit size chunks acc = true →
      (readExactGo size chunks acc).1 = [] ∨ (readExactGo size chunks acc).1.length = size := by
  intro chunks
  induction chunks with
  | nil =>
      intro acc hle _
      rw [readExactGo]
      by_cases hlt : acc.length < size
      · rw [if_pos hlt]
        exact Or.inl rfl
      · rw [if_neg hlt]
        refine Or.inr ?_
        show acc.length = size
        omega
  | cons c rest ih =>
      intro acc hle hfit
      rw [readExactGo]
      by_cases hlt : acc.length < size
      · rw [if_pos hlt]
        rw [chunksFit] at hfit
        rw [if_pos hlt] at hfit
        simp only [Bool.and_eq_true, Bool.or_eq_true, decide_eq_true_eq,
          List.isEmpty_iff] at hfit
        by_cases hc : c = []
        · rw [if_pos hc]
          exact Or.inl rfl
        · rw [if_neg hc]
          have hfit2 : chunksFit size rest (acc ++ c) = true := by
            rcases hfit.2 with h2 | h2
            · exact absurd h2 hc
            · exact h2
          have hlen : (acc ++ c).length ≤ size := by
            rw [List.length_append]
            have := hfit.1
            omega
          exact ih (acc ++ c) hlen hfit2
      · rw [if_neg hlt]
        refine Or.inr ?_
        show acc.length = size
        omega

/-! ### Evaluation lemmas for the message handler -/

lemma onMessageReceived_resolves (c : ClientState) (e : Env) (tok : ℕ)
    (hid : e.clientMsgId ≠ "") (hget : dictGet c.respMap e.clientMsgId = some tok) :
    onMessageReceived c (some false) e =
      ({ c with
         callbackCalls := c.callbackCalls ++ [e]
         respMap := dictPop c.respMap e.clientMsgId
         store := setFut c.store tok (.resolved e) }, false) := by
  unfold onMessageReceived
  simp only [hget, if_pos hid]
  rfl

lemma onMessageReceived_throwing (c : ClientState) (e : Env) :
    onMessageReceived c (some true) e =
      ({ c with callbackCalls := c.callbackCalls ++ [e] }, true) := by
  unfold onMessageReceived
  rfl

lemma onMessageReceived_store_untouched (c : ClientState) (handler : Option Bool) (e : Env)
    (tok : ℕ) (h : ∀ p ∈ c.respMap, p.2 ≠ tok) :
    dictGet (onMessageReceived c handler e).1.store tok = dictGet c.store tok := by
  have hres : ∀ tok2, dictGet c.respMap e.clientMsgId = some tok2 →
      dictGet (setFut c.store tok2 (.resolved e)) tok = dictGet c.store tok := by
    intro tok2 hm
    refine setFut_get_ne c.store tok2 tok (.resolved e) fun heq => ?_
    exact h _ (dictGet_mem _ _ _ hm) heq.symm
  unfold onMessageReceived
  rcases handler with _ | b
  · rw [if_neg (by simp : ¬ (none : Option Bool) = some true)]
    by_cases hid : e.clientMsgId ≠ ""
    · rw [if_pos hid]
      cases hm : dictGet c.respMap e.clientMsgId with
      | none => rfl
      | some tok2 => exact hres tok2 hm
    · rw [if_neg hid]
  · cases b with
    | true => rfl
    | false =>
        rw [if_neg (by simp : ¬ (some false : Option Bool) = some true)]
        by_cases hid : e.clientMsgId ≠ ""
        · rw [if_pos hid]
          cases hm : dictGet c.respMap e.clientMsgId with
          | none => rfl
          | some tok2 => exact hres tok2 hm
        · rw [if_neg hid]

/-! ### Link between the sender tick and the burst schedule -/

lemma senderTick_drain_count (p : ProtoState) (now : ℚ) (mps : ℕ)
    (hne : p.sendQueue ≠ []) (hnc : ∀ e ∈ p.sendQueue, e.1 = false) :
    (senderTick p now mps).written.length = p.written.length + min mps p.sendQueue.length := by
  unfold senderTick
  rw [if_neg hne]
  simp only [List.length_append, List.length_map]
  have hfil : (p.sendQueue.take (min mps p.sendQueue.length)).filter (fun e => !e.1) =
      p.sendQueue.take (min mps p.sendQueue.length) := by
    apply List.filter_eq_self.mpr
    intro e he
    have hm := List.Sublist.mem he (List.take_sublist _ _)
    simp [hnc e hm]
  rw [hfil, List.length_take]
  omega

/-! ## Claim theorems -/

/-- C1 counterexample: the claim says no 1-second sliding window contains more
than `messagesPerSecond` writes.  With `messagesPerSecond = 5` and a burst of
6 queued messages, the sender writes 5 messages at its first tick (0.2 s) and
the 6th at its second tick (0.4 s); the 1-second window spanning the first 5
ticks therefore contains 6 > 5 writes. -/
theorem rate_limit_burst6_violation :
    0 < 5 ∧ windowWrites 5 6 0 = 6 ∧ 5 < windowWrites 5 6 0 := by decide

/-- C1 amended: the sender loop drains up to `messagesPerSecond` messages per
tick with ticks spaced `1 / messagesPerSecond` seconds apart, so a 1-second
window — `messagesPerSecond` consecutive ticks — contains at most
`messagesPerSecond * messagesPerSecond` writes; the per-window bound
`messagesPerSecond` claimed by the specification is not what the code
enforces. -/
theorem rate_limit_window_sq_bound (mps N a : ℕ) : windowWrites mps N a ≤ mps * mps := by
  unfold windowWrites
  have h : ∀ x ∈ (List.range mps).map (fun i => senderWrites mps N (a + i)), x ≤ mps := by
    intro x hx
    simp only [List.mem_map] at hx
    obtain ⟨i, _, rfl⟩ := hx
    exact min_le_left _ _
  calc ((List.range mps).map fun i => senderWrites mps N (a + i)).sum
      ≤ ((List.range mps).map fun i => senderWrites mps N (a + i)).length • mps :=
        List.sum_le_card_nsmul _ _ h
    _ = mps * mps := by simp [smul_eq_mul]

/-- C4 counterexample: with no account set (`current_account_id = None`),
`place_market_order` raises no `AccountNotAuthenticated`-style error at all:
the order request is built with the absent account id and handed straight to
the client request layer, contradicting the claim that every account-scoped
trading operation fails unless the session is account-authenticated. -/
theorem place_market_order_unguarded :
    placeMarketOrder ⟨none, true⟩ 2 1 100 = .ok (.newOrder none 2 1 1 100) := rfl

/-- C4 amended: only the query operations (`get_symbols`, `get_assets`, and —
together with a connectivity check — `get_trader_info`) guard on the account,
raising exactly when `current_account_id` is falsy in Python's sense — unset
(`None`) or the integer 0; the trading operations `place_market_order` and
`cancel_order` perform no account check whatsoever; and the guard tests only
the value `set_account` stored, not that the server confirmed account
authentication. -/
theorem account_guard_split (s : ConnState) (incl : Bool)
    (symbolId tradeSide volume orderId accountId : ℤ) :
    ((getSymbols s incl = .error .accountNotSet) ↔ accountFalsy s.currentAccountId = true) ∧
    ((getAssets s = .error .accountNotSet) ↔ accountFalsy s.currentAccountId = true) ∧
    (s.clientConnected = true →
      ((getTraderInfo s = .error .accountNotSet) ↔ accountFalsy s.currentAccountId = true)) ∧
    (∃ call, placeMarketOrder s symbolId tradeSide volume = .ok call) ∧
    (∃ call, cancelOrder s orderId = .ok call) ∧
    (setAccount s accountId).currentAccountId = some accountId := by
  obtain ⟨acct, conn⟩ := s
  cases acct with
  | none =>
      refine ⟨by simp [getSymbols, accountFalsy], by simp [getAssets, accountFalsy], ?_,
        ⟨_, rfl⟩, ⟨_, rfl⟩, rfl⟩
      intro _
      simp [getTraderInfo, accountFalsy]
  | some a =>
      by_cases h0 : a = 0
      · subst h0
        refine ⟨by simp [getSymbols, accountFalsy], by simp [getAssets, accountFalsy], ?_,
          ⟨_, rfl⟩, ⟨_, rfl⟩, rfl⟩
        intro _
        simp [getTraderInfo, accountFalsy]
      · refine ⟨by simp [getSymbols, accountFalsy, h0], by simp [getAssets, accountFalsy, h0],
          ?_, ⟨_, rfl⟩, ⟨_, rfl⟩, rfl⟩
        intro hc
        simp only at hc
        simp [getTraderInfo, accountFalsy, h0, hc]

/-- C4 witness: the guard fires both at a connector with no account set and at
the falsy account id 0, while `place_market_order` still goes through
unguarded. -/
theorem account_guard_split_witness :
    getSymbols ⟨none, true⟩ true = .error .accountNotSet ∧
    getSymbols ⟨some 0, true⟩ true = .error .accountNotSet ∧
    getTraderInfo ⟨none, true⟩ = .error .accountNotSet ∧
    (∃ call, placeMarketOrder ⟨none, true⟩ 2 1 100 = .ok call) ∧
    (setAccount ⟨none, true⟩ 12345).currentAccountId = some 12345 := by
  have h := account_guard_split ⟨none, true⟩ true 2 1 100 7 12345
  have h0 := account_guard_split ⟨some 0, true⟩ true 2 1 100 7 12345
  exact ⟨h.1.mpr rfl, h0.1.mpr rfl, (h.2.2.1 rfl).mpr rfl, h.2.2.2.1, h.2.2.2.2.2⟩

/-- C6: `ensure_token_valid` refreshes the stored token if and only if
`now ≥ issued_at + expires_in − 300` seconds (5 minutes before expiry); below
the threshold it performs no refresh and leaves the stored token unchanged. -/
theorem ensure_token_valid_refresh_iff (t : TokenData) (e now : ℚ) (resp : TokenResp)
    (he : t.expires_in = some e) :
    (ensureTokenValid t now resp = some (mkRefreshed resp now, true) ↔
      now ≥ t.issued_at + e - 300) ∧
    (now < t.issued_at + e - 300 → ensureTokenValid t now resp = some (t, false)) := by
  unfold ensureTokenValid
  rw [he]
  dsimp only
  by_cases h : now ≥ (e + t.issued_at) - 5 * 60
  · rw [if_pos h]
    refine ⟨⟨fun _ => by linarith, fun _ => rfl⟩, fun hlt => absurd h (by linarith)⟩
  · rw [if_neg h]
    refine ⟨⟨fun heq => ?_, fun hge => absurd hge (by simp at h ⊢; linarith)⟩, fun _ => rfl⟩
    have h2 : ((t, false) : TokenData × Bool) = (mkRefreshed resp now, true) :=
      Option.some.inj heq
    exact absurd (congrArg Prod.snd h2) (by simp)

/-- C6 witness: a token issued at 1000 with a 3600-second lifetime is
refreshed at `now = 5000` (past the `4300` threshold). -/
theorem ensure_token_valid_refresh_iff_witness :
    (ensureTokenValid ⟨some "a", some "r", some 3600, 1000, "Bearer"⟩ 5000
        ⟨some "b", some "s", some 3600, "Bearer"⟩ =
      some (mkRefreshed ⟨some "b", some "s", some 3600, "Bearer"⟩ 5000, true) ↔
      (5000 : ℚ) ≥ 1000 + 3600 - 300) ∧
    ((5000 : ℚ) < 1000 + 3600 - 300 →
      ensureTokenValid ⟨some "a", some "r", some 3600, 1000, "Bearer"⟩ 5000
          ⟨some "b", some "s", some 3600, "Bearer"⟩ =
        some (⟨some "a", some "r", some 3600, 1000, "Bearer"⟩, false)) :=
  ensure_token_valid_refresh_iff ⟨some "a", some "r", some 3600, 1000, "Bearer"⟩ 3600 5000
    ⟨some "b", some "s", some 3600, "Bearer"⟩ rfl

/-- C7 counterexample: the claim quantifies over every legacy camelCase token
file, but for the file `{accessToken: "a", refreshToken: "r", expiresIn: 0,
tokenType: "Bearer"}` the normalization `token_dict.get("expiresIn") or
token_dict.get("expires_in")` treats the integer 0 as falsy and stores `None`
for `expires_in`, while loading the snake_case equivalent stores 0: the two
in-memory tokens differ. -/
theorem load_tokens_zero_expires_differs :
    (loadTokens ⟨some "a", some "r", some 0, some "Bearer", none, none, none, none, none⟩
        1000).1 ≠
      (loadTokens ⟨none, none, none, none, some "a", some "r", some 0, some "Bearer",
        some 1000⟩ 1000).1 := by
  decide

/-- C7 amended: for every legacy camelCase token file whose `accessToken` and
`refreshToken` are non-empty and whose `expiresIn` is non-zero, loading it
produces the same in-memory token as loading the snake_case equivalent (with
`issued_at` defaulting to the read time, since the legacy file lacks it), and
the file is immediately rewritten in canonical snake_case form. -/
theorem load_tokens_legacy_matches_snake (a r tt : String) (e now : ℚ)
    (ha : a ≠ "") (hr : r ≠ "") (he : e ≠ 0) :
    (loadTokens ⟨some a, some r, some e, some tt, none, none, none, none, none⟩ now).1 =
      (loadTokens ⟨none, none, none, none, some a, some r, some e, some tt, some now⟩ now).1 ∧
    (loadTokens ⟨some a, some r, some e, some tt, none, none, none, none, none⟩ now).2 =
      some (savedFileOf ⟨some a, some r, some e, now, tt⟩) := by
  constructor
  · simp [loadTokens, pyOrStr, pyOrNum, truthyStr, truthyNum, ha, hr, he]
  · simp [loadTokens, pyOrStr, pyOrNum, truthyStr, truthyNum, ha, hr, he, savedFileOf]

/-- C7 witness: a concrete legacy file with a one-hour token. -/
theorem load_tokens_legacy_matches_snake_witness :
    ("a" ≠ "" ∧ "r" ≠ "" ∧ (3600 : ℚ) ≠ 0) ∧
    ((loadTokens ⟨some "a", some "r", some 3600, some "Bearer", none, none, none, none,
          none⟩ 1000).1 =
        (loadTokens ⟨none, none, none, none, some "a", some "r", some 3600, some "Bearer",
          some 1000⟩ 1000).1 ∧
      (loadTokens ⟨some "a", some "r", some 3600, some "Bearer", none, none, none, none,
          none⟩ 1000).2 =
        some (savedFileOf ⟨some "a", some "r", some 3600, 1000, "Bearer"⟩)) :=
  ⟨⟨by decide, by decide, by norm_num⟩,
    load_tokens_legacy_matches_snake "a" "r" "Bearer" 3600 1000 (by decide) (by decide)
      (by norm_num)⟩

/-- C5: when a request's response deadline expires, `send` removes exactly
that request's `clientMsgId` entry from the correlation map and fails the
caller with `Timeout`; every other map entry and every future is unchanged,
and any other in-flight request still resolves normally when its response
arrives. -/
theorem send_timeout_isolated (c : ClientState) (id k : String) (tok : ℕ) (e : Env)
    (hnodup : nodupKeys c.respMap) (hne : k ≠ id)
    (hk : dictGet c.respMap k = some tok)
    (hpend : dictGet c.store tok = some .pending)
    (hid : e.clientMsgId = k) (hkne : k ≠ "") :
    (sendOnTimeout c id).2 = .timeoutErr ∧
    dictGet (sendOnTimeout c id).1.respMap id = none ∧
    (∀ k2, k2 ≠ id → dictGet (sendOnTimeout c id).1.respMap k2 = dictGet c.respMap k2) ∧
    (sendOnTimeout c id).1.store = c.store ∧
    dictGet (onMessageReceived (sendOnTimeout c id).1 (some false) e).1.store tok =
      some (.resolved e) := by
  refine ⟨rfl, ?_, ?_, rfl, ?_⟩
  · exact dictGet_dictPop_self c.respMap id hnodup
  · intro k2 hk2
    exact dictGet_dictPop_ne c.respMap k2 id hk2
  · have hget : dictGet (sendOnTimeout c id).1.respMap e.clientMsgId = some tok := by
      show dictGet (dictPop c.respMap id) e.clientMsgId = some tok
      rw [hid, dictGet_dictPop_ne c.respMap k id hne]
      exact hk
    have hidne : e.clientMsgId ≠ "" := by rw [hid]; exact hkne
    rw [onMessageReceived_resolves (sendOnTimeout c id).1 e tok hidne hget]
    exact setFut_get_pending c.store tok (.resolved e) hpend

/-- C5 witness: two in-flight requests `"a"` (token 1) and `"b"` (token 2);
request `"a"` times out, `"b"` stays mapped and still resolves. -/
theorem send_timeout_isolated_witness :
    (sendOnTimeout ⟨true, [(1, .pending), (2, .pending)], [("a", 1), ("b", 2)], [], []⟩
      "a").2 = .timeoutErr ∧
    dictGet (sendOnTimeout ⟨true, [(1, .pending), (2, .pending)], [("a", 1), ("b", 2)], [], []⟩
      "a").1.respMap "a" = none ∧
    (∀ k2, k2 ≠ "a" →
      dictGet (sendOnTimeout ⟨true, [(1, .pending), (2, .pending)], [("a", 1), ("b", 2)],
        [], []⟩ "a").1.respMap k2 =
      dictGet ([("a", 1), ("b", 2)] : List (String × ℕ)) k2) ∧
    (sendOnTimeout ⟨true, [(1, .pending), (2, .pending)], [("a", 1), ("b", 2)], [], []⟩
      "a").1.store = [(1, .pending), (2, .pending)] ∧
    dictGet (onMessageReceived (sendOnTimeout ⟨true, [(1, .pending), (2, .pending)],
        [("a", 1), ("b", 2)], [], []⟩ "a").1 (some false) ⟨2101, [8, 1], "b"⟩).1.store 2 =
      some (.resolved ⟨2101, [8, 1], "b"⟩) :=
  send_timeout_isolated ⟨true, [(1, .pending), (2, .pending)], [("a", 1), ("b", 2)], [], []⟩
    "a" "b" 2 ⟨2101, [8, 1], "b"⟩ (by unfold nodupKeys; decide) (by decide) (by decide)
    (by decide) rfl (by decide)

/-- C10: the correlation map is a Python dict, so it binds at most one future
per `clientMsgId` and the dict operations preserve key uniqueness; sending
with a `clientMsgId` that is already pending replaces the earlier future in
the map, after which the earlier future's token occurs nowhere in the map and
no arriving response (whatever the envelope and however the user handler
behaves) can change its state — it can only be completed by its own caller's
timeout or a disconnect. -/
theorem correlation_map_unique_binding (c : ClientState) (id : String) (oldTok newTok : ℕ)
    (hnodup : nodupKeys c.respMap)
    (hold : dictGet c.respMap id = some oldTok)
    (honly : ∀ p ∈ c.respMap, p.2 = oldTok → p.1 = id)
    (hfresh : newTok ≠ oldTok) :
    (∀ (m : List (String × ℕ)) (k : String) (v : ℕ), nodupKeys m →
      nodupKeys (dictInsert m k v) ∧ nodupKeys (dictPop m k)) ∧
    nodupKeys (sendRegister c id newTok).respMap ∧
    dictGet (sendRegister c id newTok).respMap id = some newTok ∧
    (∀ p ∈ (sendRegister c id newTok).respMap, p.2 ≠ oldTok) ∧
    (∀ (e : Env) (handler : Option Bool),
      dictGet (onMessageReceived (sendRegister c id newTok) handler e).1.store oldTok =
        dictGet (sendRegister c id newTok).store oldTok) := by
  have hvals : ∀ p ∈ (sendRegister c id newTok).respMap, p.2 ≠ oldTok := by
    intro p hp hval
    rcases mem_dictInsert c.respMap id newTok p hnodup hp with h1 | h1
    · rw [h1] at hval
      exact hfresh hval
    · exact h1.2 (honly p h1.1 hval)
  refine ⟨fun m k v hm => ⟨nodupKeys_dictInsert m k v hm, nodupKeys_dictPop m k hm⟩,
    nodupKeys_dictInsert c.respMap id newTok hnodup,
    dictGet_dictInsert_self c.respMap id newTok, hvals, ?_⟩
  intro e handler
  exact onMessageReceived_store_untouched (sendRegister c id newTok) handler e oldTok hvals

/-- C10 witness: re-sending with the pending id `"a"` replaces token 1 by
token 2; a matching response then leaves the orphaned future 1 untouched. -/
theorem correlation_map_unique_binding_witness :
    (∀ (m : List (String × ℕ)) (k : String) (v : ℕ), nodupKeys m →
      nodupKeys (dictInsert m k v) ∧ nodupKeys (dictPop m k)) ∧
    nodupKeys (sendRegister ⟨true, [(1, .pending)], [("a", 1)], [], []⟩ "a" 2).respMap ∧
    dictGet (sendRegister ⟨true, [(1, .pending)], [("a", 1)], [], []⟩ "a" 2).respMap "a" =
      some 2 ∧
    (∀ p ∈ (sendRegister ⟨true, [(1, .pending)], [("a", 1)], [], []⟩ "a" 2).respMap,
      p.2 ≠ 1) ∧
    (∀ (e : Env) (handler : Option Bool),
      dictGet (onMessageReceived (sendRegister ⟨true, [(1, .pending)], [("a", 1)], [], []⟩
          "a" 2) handler e).1.store 1 =
        dictGet (sendRegister ⟨true, [(1, .pending)], [("a", 1)], [], []⟩ "a" 2).store 1) :=
  correlation_map_unique_binding ⟨true, [(1, .pending)], [("a", 1)], [], []⟩ "a" 1 2
    (by unfold nodupKeys; decide) (by decide) (by decide) (by decide)

/-- C2 counterexample: the claim says every way of becoming disconnected
fails the pending waiters with `ConnectionLost` and invokes the disconnect
callback, but on orderly EOF the receive loop merely logs, breaks, and clears
`is_connected`: with one pending waiter (token 1, id `"a"`), after the EOF
path the waiter is still pending and the disconnect callback was never
invoked. -/
theorem receiver_eof_no_fanout :
    (receiverOnEof ⟨true, ⟨true, [(1, .pending)], [("a", 1)], [], []⟩⟩).client.store =
      [(1, .pending)] ∧
    (receiverOnEof ⟨true, ⟨true, [(1, .pending)], [("a", 1)], [], []⟩⟩).client.disconnectCalls
      = [] ∧
    (receiverOnEof ⟨true, ⟨true, [(1, .pending)], [("a", 1)], [], []⟩⟩).protoConnected
      = false := by
  decide

/-- C2 amended: the ConnectionLost fan-out happens only on the explicit
disconnect path: `AsyncTcpProtocol.disconnect()` drives
`AsyncClient._on_disconnected`, which fails every pending waiter referenced
by the correlation map with the connection-lost reason, clears the map, and
invokes the disconnect callback with the reason — while the EOF and
transport-error endings of the receive loop only clear the protocol's
connected flag and leave every waiter and the callback transcript
untouched. -/
theorem disconnect_fanout_only_explicit (s : SysState) (id : String) (tok : ℕ)
    (hmem : dictGet s.client.respMap id = some tok)
    (hpend : dictGet s.client.store tok = some .pending) :
    dictGet (protocolDisconnect s).client.store tok =
      some (.failed ("Соединение потеряно: " ++ "Manual disconnect")) ∧
    (protocolDisconnect s).client.respMap = [] ∧
    (protocolDisconnect s).client.disconnectCalls =
      s.client.disconnectCalls ++ ["Manual disconnect"] ∧
    (protocolDisconnect s).client.isConnected = false ∧
    (receiverOnEof s).client = s.client ∧
    (receiverOnError s).client = s.client := by
  refine ⟨?_, rfl, rfl, rfl, rfl, rfl⟩
  have hv : tok ∈ s.client.respMap.map Prod.snd :=
    List.mem_map_of_mem Prod.snd (dictGet_mem _ _ _ hmem)
  exact foldl_fail_sets (s.client.respMap.map Prod.snd) s.client.store tok _ hv hpend

/-- C2 witness: a session with one pending waiter, explicitly disconnected. -/
theorem disconnect_fanout_only_explicit_witness :
    dictGet (protocolDisconnect ⟨true, ⟨true, [(1, .pending)], [("a", 1)], [], []⟩⟩).client.store
        1 = some (.failed ("Соединение потеряно: " ++ "Manual disconnect")) ∧
    (protocolDisconnect ⟨true, ⟨true, [(1, .pending)], [("a", 1)], [], []⟩⟩).client.respMap
      = [] ∧
    (protocolDisconnect ⟨true, ⟨true, [(1, .pending)], [("a", 1)], [], []⟩⟩).client.disconnectCalls
      = [] ++ ["Manual disconnect"] ∧
    (protocolDisconnect ⟨true, ⟨true, [(1, .pending)], [("a", 1)], [], []⟩⟩).client.isConnected
      = false ∧
    (receiverOnEof ⟨true, ⟨true, [(1, .pending)], [("a", 1)], [], []⟩⟩).client =
      ⟨true, [(1, .pending)], [("a", 1)], [], []⟩ ∧
    (receiverOnError ⟨true, ⟨true, [(1, .pending)], [("a", 1)], [], []⟩⟩).client =
      ⟨true, [(1, .pending)], [("a", 1)], [], []⟩ :=
  disconnect_fanout_only_explicit ⟨true, ⟨true, [(1, .pending)], [("a", 1)], [], []⟩⟩ "a" 1
    (by decide) (by decide)

/-- C3 counterexample: the claim says the map entry is removed and the waiter
resolved even when the registered handler throws; but when the handler raises
on the envelope with id `"a"`, the exception aborts
`AsyncClient._on_message_received` before the correlation lines run: the
entry stays in the map and the waiter stays pending (the callback was
invoked, and the loops survive because `_safe_call` catches the exception). -/
theorem throwing_handler_skips_resolution :
    (onMessageReceived ⟨true, [(1, .pending)], [("a", 1)], [], []⟩ (some true)
        ⟨2101, [8, 1], "a"⟩).1.respMap = [("a", 1)] ∧
    (onMessageReceived ⟨true, [(1, .pending)], [("a", 1)], [], []⟩ (some true)
        ⟨2101, [8, 1], "a"⟩).1.store = [(1, .pending)] ∧
    (onMessageReceived ⟨true, [(1, .pending)], [("a", 1)], [], []⟩ (some true)
        ⟨2101, [8, 1], "a"⟩).1.callbackCalls = [⟨2101, [8, 1], "a"⟩] ∧
    safeCallSurvives (onMessageReceived ⟨true, [(1, .pending)], [("a", 1)], [], []⟩
        (some true) ⟨2101, [8, 1], "a"⟩).2 = true := by
  decide

/-- C3 amended: for a received non-heartbeat envelope whose `clientMsgId` is
present in the correlation map, when the registered handler returns normally
the callback is invoked and then the entry is removed and the pending waiter
is resolved with the envelope; when the handler throws, the exception is
caught by the protocol's `_safe_call` so the loops survive either way, but
the map entry is not removed and the waiter is not resolved. -/
theorem message_resolution_guarded (c : ClientState) (e : Env) (tok : ℕ)
    (hid : e.clientMsgId ≠ "") (hget : dictGet c.respMap e.clientMsgId = some tok)
    (hpend : dictGet c.store tok = some .pending) (hnodup : nodupKeys c.respMap) :
    ((onMessageReceived c (some false) e).1.callbackCalls = c.callbackCalls ++ [e] ∧
      dictGet (onMessageReceived c (some false) e).1.respMap e.clientMsgId = none ∧
      dictGet (onMessageReceived c (some false) e).1.store tok = some (.resolved e) ∧
      safeCallSurvives (onMessageReceived c (some false) e).2 = true) ∧
    ((onMessageReceived c (some true) e).1.callbackCalls = c.callbackCalls ++ [e] ∧
      (onMessageReceived c (some true) e).1.respMap = c.respMap ∧
      (onMessageReceived c (some true) e).1.store = c.store ∧
      safeCallSurvives (onMessageReceived c (some true) e).2 = true) := by
  rw [onMessageReceived_resolves c e tok hid hget, onMessageReceived_throwing c e]
  refine ⟨⟨rfl, ?_, ?_, rfl⟩, rfl, rfl, rfl, rfl⟩
  · exact dictGet_dictPop_self c.respMap e.clientMsgId hnodup
  · exact setFut_get_pending c.store tok (.resolved e) hpend

/-- C3 witness: one pending request with id `"a"`, response envelope of
payload type 2101. -/
theorem message_resolution_guarded_witness :
    ((onMessageReceived ⟨true, [(1, .pending)], [("a", 1)], [], []⟩ (some false)
        ⟨2101, [8, 1], "a"⟩).1.callbackCalls = [] ++ [⟨2101, [8, 1], "a"⟩] ∧
      dictGet (onMessageReceived ⟨true, [(1, .pending)], [("a", 1)], [], []⟩ (some false)
        ⟨2101, [8, 1], "a"⟩).1.respMap "a" = none ∧
      dictGet (onMessageReceived ⟨true, [(1, .pending)], [("a", 1)], [], []⟩ (some false)
        ⟨2101, [8, 1], "a"⟩).1.store 1 = some (.resolved ⟨2101, [8, 1], "a"⟩) ∧
      safeCallSurvives (onMessageReceived ⟨true, [(1, .pending)], [("a", 1)], [], []⟩
        (some false) ⟨2101, [8, 1], "a"⟩).2 = true) ∧
    ((onMessageReceived ⟨true, [(1, .pending)], [("a", 1)], [], []⟩ (some true)
        ⟨2101, [8, 1], "a"⟩).1.callbackCalls = [] ++ [⟨2101, [8, 1], "a"⟩] ∧
      (onMessageReceived ⟨true, [(1, .pending)], [("a", 1)], [], []⟩ (some true)
        ⟨2101, [8, 1], "a"⟩).1.respMap = [("a", 1)] ∧
      (onMessageReceived ⟨true, [(1, .pending)], [("a", 1)], [], []⟩ (some true)
        ⟨2101, [8, 1], "a"⟩).1.store = [(1, .pending)] ∧
      safeCallSurvives (onMessageReceived ⟨true, [(1, .pending)], [("a", 1)], [], []⟩
        (some true) ⟨2101, [8, 1], "a"⟩).2 = true) :=
  message_resolution_guarded ⟨true, [(1, .pending)], [("a", 1)], [], []⟩ ⟨2101, [8, 1], "a"⟩
    1 (by decide) (by decide) (by decide) (by unfold nodupKeys; decide)

/-- C8: on receiving a server heartbeat the client immediately writes a
heartbeat of its own through the instant path — the write transcript is
extended at once, the outbound queue is bypassed (left untouched), and the
user callback is not invoked — and whenever the outbound queue is empty and
more than 20 seconds (`heartbeatIdle`) have elapsed since the last write (or
nothing was ever written), the very next sender tick emits a heartbeat. -/
theorem heartbeat_instant_and_idle (p q : ProtoState) (now now2 : ℚ) (e : Env) (mps : ℕ) :
    (e.payloadType = heartbeatPayloadType →
      processMessage p now e =
        ({ p with written := p.written ++ [heartbeatBytes], lastSendTime := some now },
          false)) ∧
    (q.sendQueue = [] →
      (q.lastSendTime = none ∨ ∃ t, q.lastSendTime = some t ∧ now2 - t > 20) →
      senderTick q now2 mps =
        { q with written := q.written ++ [heartbeatBytes], lastSendTime := some now2 }) := by
  constructor
  · intro hhb
    simp [processMessage, hhb, sendInstant]
  · intro hq hidle
    unfold senderTick
    rw [if_pos hq]
    rcases hidle with hnone | ⟨t, ht, hgt⟩
    · rw [hnone]
      rfl
    · rw [ht]
      simp only
      rw [if_pos hgt]
      rfl

/-- C8 witness: a heartbeat envelope (tag 51) answered instantly, and a tick
at `now = 25` with an empty queue last written at time 0. -/
theorem heartbeat_instant_and_idle_witness :
    processMessage ⟨true, [], none, []⟩ 1 ⟨51, [], ""⟩ =
      (⟨true, [], some 1, [heartbeatBytes]⟩, false) ∧
    senderTick ⟨true, [], some 0, []⟩ 25 5 = ⟨true, [], some 25, [heartbeatBytes]⟩ := by
  have h := heartbeat_instant_and_idle ⟨true, [], none, []⟩ ⟨true, [], some 0, []⟩ 1 25
    ⟨51, [], ""⟩ 5
  exact ⟨h.1 rfl, h.2 rfl (Or.inr ⟨0, rfl, by norm_num⟩)⟩

/-- C9: `_read_exact(n)` on a live reader returns either exactly `n` bytes or
the empty byte string, never a partial prefix (for any chunk trace respecting
the reader contract); and a frame whose 4-byte length prefix declares length
0 makes the subsequent exact read return empty, which the receive loop treats
as a closed connection — so a zero-length payload is never delivered. -/
theorem read_exact_all_or_nothing (chunks rest : List (List ℕ)) (size : ℕ)
    (hfit : chunksFit size chunks [] = true) :
    ((readExact chunks size).1 = [] ∨ (readExact chunks size).1.length = size) ∧
    receiverStep ([0, 0, 0, 0] :: rest) = .closed := by
  constructor
  · exact readExactGo_spec size chunks [] (by simp) hfit
  · cases rest <;> rfl

/-- C9 witness: a 4-byte read served by two 2-byte chunks, and a zero-length
frame. -/
theorem read_exact_all_or_nothing_witness :
    chunksFit 4 [[1, 2], [3, 4]] [] = true ∧
    (((readExact [[1, 2], [3, 4]] 4).1 = [] ∨ (readExact [[1, 2], [3, 4]] 4).1.length = 4) ∧
      receiverStep ([0, 0, 0, 0] :: []) = .closed) :=
  ⟨by decide, read_exact_all_or_nothing [[1, 2], [3, 4]] [] 4 (by decide)⟩

end Ctrader
